import Mathlib

/-!
# Verification of the wave-function-visualizer propagation core

Shallow embedding of the numerical core of `src/streamlit_app.py`
(`normalize_wave_function`, `initialize_wave_packet`, `hamiltonian`,
`evolve_wave_function`, and the driver's evolution loop), with theorems
settling the specification claims about it.

Floating-point arithmetic is modelled by exact real/complex arithmetic;
numpy arrays of complex amplitudes become `Fin N → ℂ`, numpy square
matrices become `Matrix (Fin N) (Fin N)` over `ℝ` or `ℂ`, and
`scipy.linalg.solve(a, y)` becomes `a⁻¹ *ᵥ y` (the two agree whenever the
solve succeeds, i.e. whenever `a` is nonsingular).
-/

open Matrix BigOperators

noncomputable section

namespace WaveSim

/-- `scipy.constants.hbar`, the reduced Planck constant in SI units,
imported at the top of the source file. -/
def hbar : ℝ := 1.0545718176461565e-34

/-- `mass = 1.0`, the module-level particle-mass constant of the source. -/
def mass : ℝ := 1.0

/-- `np.sum(np.abs(psi)**2) * dx`, the discrete total probability
`Σ|ψ_i|²·dx` appearing inside `normalize_wave_function`. -/
def totalProb {N : ℕ} (psi : Fin N → ℂ) (dx : ℝ) : ℝ :=
  (∑ i, Complex.abs (psi i) ^ 2) * dx

/-- `norm = np.sqrt(np.sum(np.abs(psi)**2) * dx)` from
`normalize_wave_function`. -/
def waveNorm {N : ℕ} (psi : Fin N → ℂ) (dx : ℝ) : ℝ :=
  Real.sqrt (totalProb psi dx)

/-- `normalize_wave_function(psi, dx)`: if the computed norm is zero the
input is returned unchanged, otherwise `psi / norm` elementwise. -/
def normalize_wave_function {N : ℕ} (psi : Fin N → ℂ) (dx : ℝ) : Fin N → ℂ :=
  if waveNorm psi dx = 0 then psi
  else fun i => psi i / (waveNorm psi dx : ℂ)

/-- Python-level exception/warning vocabulary used when recording the
observable failure behaviour of the source functions. -/
inductive PyEvent
  | DegenerateStateWarning
  | InvalidParameterError
  deriving DecidableEq

/-- Warnings signalled by a call to `normalize_wave_function`: the body of
the source function (lines 11–19) contains no `warnings.warn`, `raise` or
any other signalling construct on any path, so every call signals the
empty list of warnings. -/
def normalize_wave_function_warnings {N : ℕ} (_psi : Fin N → ℂ) (_dx : ℝ) :
    List PyEvent := []

/-- `initialize_wave_packet(x, x0, k0, sigma)`: the Gaussian wave packet
`(1/√(σ·√(2π))) · exp(−(x−x0)²/(2σ²)) · exp(i·k0·x)` evaluated at every
grid point. -/
def initialize_wave_packet {N : ℕ} (x : Fin N → ℝ) (x0 k0 sigma : ℝ) :
    Fin N → ℂ :=
  fun i =>
    ((1 / Real.sqrt (sigma * Real.sqrt (2 * Real.pi)) : ℝ) : ℂ) *
      ((Real.exp (-((x i - x0) ^ 2) / (2 * sigma ^ 2)) : ℝ) : ℂ) *
      Complex.exp (Complex.I * k0 * x i)

/-- Observable call outcome of `initialize_wave_packet`: the source body
(lines 21–27) performs no parameter validation and contains no `raise`,
so every call — for any `sigma` whatsoever — returns normally with the
computed array. -/
def initialize_wave_packet_checked {N : ℕ} (x : Fin N → ℝ)
    (x0 k0 sigma : ℝ) : Except PyEvent (Fin N → ℂ) :=
  Except.ok (initialize_wave_packet x x0 k0 sigma)

/-- `hamiltonian(x, V)` for a grid of length `N = n + 2 ≥ 2` (the source
reads `x[1] - x[0]`, so at least two grid points are required):
`kinetic = -(ħ²/(2·mass)) * (diag(1,-1) - 2·diag(1,0) + diag(1,+1)) / dx²`
plus `np.diag(V)`.  `np.diag(ones(N-1), -1)` has entry `(i,j) = 1` iff
`i = j + 1`, and `np.diag(ones(N-1), 1)` has entry `(i,j) = 1` iff
`j = i + 1`. -/
def hamiltonian {n : ℕ} (x V : Fin (n + 2) → ℝ) :
    Matrix (Fin (n + 2)) (Fin (n + 2)) ℝ :=
  Matrix.of (fun i j : Fin (n + 2) =>
    -(hbar ^ 2 / (2 * mass)) *
        ((if (i : ℕ) = (j : ℕ) + 1 then 1 else 0)
          - 2 * (if i = j then 1 else 0)
          + (if (j : ℕ) = (i : ℕ) + 1 then 1 else 0)) / (x 1 - x 0) ^ 2)
  + Matrix.diagonal V

/-- The matrix `a = I - 1j * dt / 2 * H` built by `evolve_wave_function`. -/
def cnMatA {N : ℕ} (H : Matrix (Fin N) (Fin N) ℂ) (dt : ℝ) :
    Matrix (Fin N) (Fin N) ℂ :=
  1 - (Complex.I * dt / 2) • H

/-- The matrix `b = I + 1j * dt / 2 * H` built by `evolve_wave_function`. -/
def cnMatB {N : ℕ} (H : Matrix (Fin N) (Fin N) ℂ) (dt : ℝ) :
    Matrix (Fin N) (Fin N) ℂ :=
  1 + (Complex.I * dt / 2) • H

/-- `evolve_wave_function(psi, H, dt)`: solves `a · ψ_{n+1} = b · ψ_n` via
`scipy.linalg.solve(a, b @ psi)`, modelled as `a⁻¹ *ᵥ (b *ᵥ psi)`. -/
def evolve_wave_function {N : ℕ} (psi : Fin N → ℂ)
    (H : Matrix (Fin N) (Fin N) ℂ) (dt : ℝ) : Fin N → ℂ :=
  (cnMatA H dt)⁻¹ *ᵥ (cnMatB H dt *ᵥ psi)

/-- The left-hand Crank-Nicolson matrix as the specification words it:
`A = I + i·(dt/2ħ)·H`. -/
def cnMatA_spec {N : ℕ} (H : Matrix (Fin N) (Fin N) ℂ) (dt : ℝ) :
    Matrix (Fin N) (Fin N) ℂ :=
  1 + (Complex.I * dt / (2 * hbar)) • H

/-- The right-hand Crank-Nicolson matrix as the specification words it:
`B = I − i·(dt/2ħ)·H`. -/
def cnMatB_spec {N : ℕ} (H : Matrix (Fin N) (Fin N) ℂ) (dt : ℝ) :
    Matrix (Fin N) (Fin N) ℂ :=
  1 - (Complex.I * dt / (2 * hbar)) • H

/-- The driver's evolution loop (lines 121–125): starting from the
normalized initial state, each step applies `evolve_wave_function` and
then `normalize_wave_function`. -/
def evolutionLoop {N : ℕ} (psi0 : Fin N → ℂ)
    (H : Matrix (Fin N) (Fin N) ℂ) (dt dx : ℝ) : ℕ → (Fin N → ℂ)
  | 0 => psi0
  | k + 1 =>
      normalize_wave_function
        (evolve_wave_function (evolutionLoop psi0 H dt dx k) H dt) dx

/-! ## A numpy-level model of `hamiltonian` for shape errors

To reason about calls with a potential whose length differs from the
grid's, the array shapes must be part of the model.  A square numpy
array is a size plus an entry function (entries outside the range are
irrelevant), and elementwise addition follows numpy broadcasting: shapes
`(n,n)` and `(m,m)` are compatible iff `n = m` or one of `n`, `m` is `1`
(a `(1,1)` array is broadcast over the whole other array). -/

/-- A square 2-D numpy array: its size and its entries. -/
structure NpSquare where
  size : ℕ
  entry : ℕ → ℕ → ℝ

/-- Exceptions numpy itself raises on the paths modelled here. -/
inductive NpError
  | IndexError
  | ValueErrorBroadcast
  deriving DecidableEq

/-- numpy elementwise `+` on square 2-D arrays, with broadcasting. -/
def npAdd (A B : NpSquare) : Except NpError NpSquare :=
  if A.size = B.size then
    Except.ok ⟨A.size, fun i j => A.entry i j + B.entry i j⟩
  else if B.size = 1 then
    Except.ok ⟨A.size, fun i j => A.entry i j + B.entry 0 0⟩
  else if A.size = 1 then
    Except.ok ⟨B.size, fun i j => A.entry 0 0 + B.entry i j⟩
  else Except.error NpError.ValueErrorBroadcast

/-- `np.diag(v)` for a 1-D array `v`: a `len(v) × len(v)` matrix with `v`
on the main diagonal. -/
def npDiag (v : List ℝ) : NpSquare :=
  ⟨v.length, fun i j => if i = j then v.getD i 0 else 0⟩

/-- `hamiltonian(x, V)` at the numpy level, tracking array shapes:
`dx = x[1] - x[0]` raises `IndexError` when `len(x) < 2`; the kinetic
matrix is `len(x) × len(x)`; the final `kinetic + potential` follows
numpy broadcasting against the `len(V) × len(V)` matrix `np.diag(V)`.
No length check of any kind appears in the source body (lines 29–39). -/
def hamiltonian_np (x V : List ℝ) : Except NpError NpSquare :=
  if 2 ≤ x.length then
    let dx := x.getD 1 0 - x.getD 0 0
    let kinetic : NpSquare :=
      ⟨x.length, fun i j =>
        -(hbar ^ 2 / (2 * mass)) *
            ((if i = j + 1 then 1 else 0)
              - 2 * (if i = j then 1 else 0)
              + (if j = i + 1 then 1 else 0)) / dx ^ 2⟩
    npAdd kinetic (npDiag V)
  else Except.error NpError.IndexError

/-! ## Normalizer lemmas -/

/-- If the computed norm is nonzero, the total probability of the input is
strictly positive. -/
theorem totalProb_pos_of_waveNorm_ne_zero {N : ℕ} (psi : Fin N → ℂ) (dx : ℝ)
    (h : waveNorm psi dx ≠ 0) : 0 < totalProb psi dx := by
  rcases lt_or_le 0 (totalProb psi dx) with h1 | h1
  · exact h1
  · exact absurd (Real.sqrt_eq_zero'.mpr h1) h

/-- After a successful division by the norm, the total probability is
exactly `1`. -/
theorem totalProb_normalize_eq_one {N : ℕ} (psi : Fin N → ℂ) (dx : ℝ)
    (h : waveNorm psi dx ≠ 0) :
    totalProb (normalize_wave_function psi dx) dx = 1 := by
  have ht : 0 < totalProb psi dx := totalProb_pos_of_waveNorm_ne_zero psi dx h
  have hsq : waveNorm psi dx ^ 2 = totalProb psi dx := Real.sq_sqrt ht.le
  rw [normalize_wave_function, if_neg h]
  unfold totalProb at hsq ht ⊢
  simp only [map_div₀, Complex.abs_ofReal, div_pow, sq_abs]
  rw [← Finset.sum_div, div_mul_eq_mul_div, hsq, div_self ht.ne']

/-- C5: when the computed norm is nonzero, `normalize_wave_function`
returns the elementwise quotient `psi i / norm`. -/
theorem normalize_eq_div {N : ℕ} (psi : Fin N → ℂ) (dx : ℝ)
    (h : waveNorm psi dx ≠ 0) :
    ∀ i, normalize_wave_function psi dx i = psi i / (waveNorm psi dx : ℂ) := by
  intro i
  rw [normalize_wave_function, if_neg h]

/-- Witness for C5 at `psi = ![1]`, `dx = 1` (norm `= 1 ≠ 0`). -/
theorem normalize_eq_div_witness :
    normalize_wave_function ![(1 : ℂ)] 1 0 =
      ![(1 : ℂ)] 0 / ((waveNorm ![(1 : ℂ)] 1 : ℝ) : ℂ) :=
  normalize_eq_div ![(1 : ℂ)] 1
    (by simp [waveNorm, totalProb]) 0

/-- C6 counterexample: on the all-zero input the function does return the
input unchanged, but no `DegenerateStateWarning` is signalled, so the
claim's conjunction fails. -/
theorem normalize_zero_warning_counterexample :
    ¬ (normalize_wave_function ![(0 : ℂ)] 1 = ![(0 : ℂ)] ∧
        PyEvent.DegenerateStateWarning ∈
          normalize_wave_function_warnings ![(0 : ℂ)] 1) := by
  rintro ⟨-, hmem⟩
  simp [normalize_wave_function_warnings] at hmem

/-- C6 (amended): on zero computed norm, `normalize_wave_function` returns
the input unchanged and raises no division error — but it signals no
warning at all. -/
theorem normalize_zero_norm_unchanged {N : ℕ} (psi : Fin N → ℂ) (dx : ℝ)
    (h : waveNorm psi dx = 0) :
    normalize_wave_function psi dx = psi ∧
      normalize_wave_function_warnings psi dx = [] := by
  constructor
  · rw [normalize_wave_function, if_pos h]
  · rfl

/-- Witness for the amended C6 at the all-zero input. -/
theorem normalize_zero_norm_unchanged_witness :
    normalize_wave_function ![(0 : ℂ)] 1 = ![(0 : ℂ)] ∧
      normalize_wave_function_warnings ![(0 : ℂ)] 1 = [] :=
  normalize_zero_norm_unchanged ![(0 : ℂ)] 1
    (by simp [waveNorm, totalProb])

/-- C7: the Normalizer is idempotent (exact arithmetic). -/
theorem normalize_idempotent {N : ℕ} (psi : Fin N → ℂ) (dx : ℝ)
    (_hdx : 0 < dx) :
    normalize_wave_function (normalize_wave_function psi dx) dx =
      normalize_wave_function psi dx := by
  by_cases h : waveNorm psi dx = 0
  · simp [normalize_wave_function, h]
  · have hw : waveNorm (normalize_wave_function psi dx) dx = 1 := by
      rw [waveNorm, totalProb_normalize_eq_one psi dx h, Real.sqrt_one]
    rw [normalize_wave_function, hw]
    simp

/-- Witness for C7 at `psi = ![2]`, `dx = 1`. -/
theorem normalize_idempotent_witness :
    (0 : ℝ) < 1 ∧
      normalize_wave_function (normalize_wave_function ![(2 : ℂ)] 1) 1 =
        normalize_wave_function ![(2 : ℂ)] 1 :=
  ⟨one_pos, normalize_idempotent ![(2 : ℂ)] 1 one_pos⟩

/-- C4: if the initial state has unit total probability and the computed
norm entering each Normalizer call is nonzero, every state produced by
the driver's Propagator+Normalizer loop has unit total probability. -/
theorem evolutionLoop_unit_norm {N : ℕ} (psi0 : Fin N → ℂ)
    (H : Matrix (Fin N) (Fin N) ℂ) (dt dx : ℝ) (n : ℕ)
    (_hdx : 0 < dx) (h0 : totalProb psi0 dx = 1)
    (hnz : ∀ k < n,
      waveNorm (evolve_wave_function (evolutionLoop psi0 H dt dx k) H dt) dx
        ≠ 0) :
    totalProb (evolutionLoop psi0 H dt dx n) dx = 1 := by
  cases n with
  | zero => exact h0
  | succ k =>
      rw [evolutionLoop]
      exact totalProb_normalize_eq_one _ dx (hnz k (Nat.lt_succ_self k))

/-- Witness for C4: one step of the loop with `psi0 = ![1]`, `H = 0`,
`dt = dx = 1`. -/
theorem evolutionLoop_unit_norm_witness :
    (0 : ℝ) < 1 ∧ totalProb (evolutionLoop ![(1 : ℂ)] 0 1 1 1) 1 = 1 := by
  refine ⟨one_pos, evolutionLoop_unit_norm ![(1 : ℂ)] 0 1 1 1 one_pos
    (by simp [totalProb]) ?_⟩
  intro k hk
  interval_cases k
  simp [evolutionLoop, evolve_wave_function, cnMatA, cnMatB, waveNorm,
    totalProb]

/-! ## Hamiltonian lemmas -/

/-- The Hamiltonian matrix is symmetric in its indices. -/
theorem hamiltonian_symm {n : ℕ} (x V : Fin (n + 2) → ℝ) (i j : Fin (n + 2)) :
    hamiltonian x V j i = hamiltonian x V i j := by
  rcases eq_or_ne i j with rfl | hij
  · rfl
  · rw [hamiltonian]
    simp only [Matrix.add_apply, Matrix.of_apply, Matrix.diagonal_apply,
      if_neg hij, if_neg (Ne.symm hij)]
    ring

/-- C2: on a uniformly spaced grid with spacing `dx > 0`, the Hamiltonian
has diagonal entries `2·ħ²/(2·mass·dx²) + V_i`, first sub- and
super-diagonal entries `−ħ²/(2·mass·dx²)`, and zeros elsewhere. -/
theorem hamiltonian_entries {n : ℕ} (x V : Fin (n + 2) → ℝ) (dx : ℝ)
    (hdx : 0 < dx)
    (hx : ∀ (i : ℕ) (h : i + 1 < n + 2),
      x ⟨i + 1, h⟩ - x ⟨i, by omega⟩ = dx) :
    ∀ i j : Fin (n + 2),
      hamiltonian x V i j =
        if i = j then 2 * (hbar ^ 2 / (2 * mass * dx ^ 2)) + V i
        else if (i : ℕ) = (j : ℕ) + 1 ∨ (j : ℕ) = (i : ℕ) + 1 then
          -(hbar ^ 2 / (2 * mass * dx ^ 2))
        else 0 := by
  intro i j
  have h10 : x 1 - x 0 = dx := by
    have h := hx 0 (by omega)
    simpa using h
  have hdx' : dx ≠ 0 := hdx.ne'
  have hm : mass ≠ 0 := by norm_num [mass]
  rw [hamiltonian]
  simp only [Matrix.add_apply, Matrix.of_apply, Matrix.diagonal_apply, h10]
  rcases eq_or_ne i j with rfl | hij
  · have h1 : ¬((i : ℕ) = (i : ℕ) + 1) := by omega
    simp only [if_pos rfl, if_neg h1]
    field_simp
    ring
  · have hij' : ¬(j = i) := Ne.symm hij
    simp only [if_neg hij]
    by_cases h1 : (i : ℕ) = (j : ℕ) + 1
    · have h2 : ¬((j : ℕ) = (i : ℕ) + 1) := by omega
      simp only [if_pos h1, if_neg h2, if_pos (Or.inl h1)]
      field_simp
    · by_cases h2 : (j : ℕ) = (i : ℕ) + 1
      · simp only [if_neg h1, if_pos h2, if_pos (Or.inr h2)]
        field_simp
      · simp only [if_neg h1, if_neg h2, if_neg (by tauto : ¬((i : ℕ) = (j : ℕ) + 1 ∨ (j : ℕ) = (i : ℕ) + 1))]
        ring

/-- Witness for C2: grid `![0, 1]`, zero potential, `dx = 1`; the `(0,1)`
entry is the off-diagonal kinetic value. -/
theorem hamiltonian_entries_witness :
    (0 : ℝ) < 1 ∧
      hamiltonian ![(0 : ℝ), 1] ![(0 : ℝ), 0] 0 1 =
        -(hbar ^ 2 / (2 * mass * 1 ^ 2)) := by
  have hx : ∀ (i : ℕ) (h : i + 1 < 2),
      (![(0 : ℝ), 1]) ⟨i + 1, h⟩ - (![(0 : ℝ), 1]) ⟨i, by omega⟩ = 1 := by
    intro i hi
    have hi0 : i = 0 := by omega
    subst hi0
    norm_num
  have h := hamiltonian_entries ![(0 : ℝ), 1] ![(0 : ℝ), 0] 1 one_pos hx 0 1
  refine ⟨one_pos, ?_⟩
  rw [h]
  norm_num

/-- C3: the (complex-valued view of the) Hamiltonian matrix equals its
conjugate transpose. -/
theorem hamiltonian_isHermitian {n : ℕ} (x V : Fin (n + 2) → ℝ) :
    ((hamiltonian x V).map Complex.ofReal).IsHermitian := by
  ext i j
  simp only [Matrix.conjTranspose_apply, Matrix.map_apply, RCLike.star_def,
    Complex.conj_ofReal]
  exact congrArg Complex.ofReal (hamiltonian_symm x V i j)

/-! ## Propagator lemmas -/

/-- `scipy.constants.hbar` is positive. -/
theorem hbar_pos : 0 < hbar := by norm_num [hbar]

/-- C1 (amended): whenever the linear solve succeeds (the code's matrix
`a` is nonsingular), the returned state satisfies the system the code
actually builds: `(I − i·(dt/2)·H) · ψ_{n+1} = (I + i·(dt/2)·H) · ψ_n`,
i.e. the signs are opposite to the specification's and no `ħ` division
appears. -/
theorem evolve_solves_code_system {N : ℕ} (psi : Fin N → ℂ)
    (H : Matrix (Fin N) (Fin N) ℂ) (dt : ℝ)
    (h : IsUnit (cnMatA H dt).det) :
    cnMatA H dt *ᵥ evolve_wave_function psi H dt = cnMatB H dt *ᵥ psi := by
  rw [evolve_wave_function, Matrix.mulVec_mulVec,
    Matrix.mul_nonsing_inv _ h, Matrix.one_mulVec]

/-- In the one-point example `H = 1`, `dt = 2`, the code's matrix
`a = I − i·H` is nonsingular. -/
theorem isUnit_det_cnMatA_example :
    IsUnit (cnMatA (1 : Matrix (Fin 1) (Fin 1) ℂ) 2).det := by
  have hdet : (cnMatA (1 : Matrix (Fin 1) (Fin 1) ℂ) 2).det
      = 1 - Complex.I := by
    simp [cnMatA, Matrix.det_fin_one, Matrix.sub_apply, Matrix.smul_apply,
      Matrix.one_apply_eq]
  rw [hdet, isUnit_iff_ne_zero]
  intro hc
  have := congrArg Complex.re hc
  simp at this

/-- Witness for the amended C1 at `psi = ![1]`, `H = 1`, `dt = 2`. -/
theorem evolve_solves_code_system_witness :
    IsUnit (cnMatA (1 : Matrix (Fin 1) (Fin 1) ℂ) 2).det ∧
      cnMatA (1 : Matrix (Fin 1) (Fin 1) ℂ) 2 *ᵥ
          evolve_wave_function ![(1 : ℂ)] 1 2 =
        cnMatB (1 : Matrix (Fin 1) (Fin 1) ℂ) 2 *ᵥ ![(1 : ℂ)] :=
  ⟨isUnit_det_cnMatA_example,
    evolve_solves_code_system ![(1 : ℂ)] 1 2 isUnit_det_cnMatA_example⟩

/-- Concrete evaluation of the propagator: with `psi = ![1]`, `H = 1`,
`dt = 2` the code computes `(1 − i)⁻¹ · (1 + i) = i`. -/
theorem evolve_example_eval :
    evolve_wave_function ![(1 : ℂ)] 1 2 = ![Complex.I] := by
  have hne : (1 : ℂ) - Complex.I ≠ 0 := by
    intro hc
    have := congrArg Complex.re hc
    simp at this
  funext i
  fin_cases i
  simp [evolve_wave_function, cnMatA, cnMatB, Matrix.inv_def,
    Matrix.adjugate_fin_one, Matrix.det_fin_one, Matrix.mulVec,
    Matrix.dotProduct, Fin.sum_univ_one, Matrix.sub_apply, Matrix.add_apply,
    Matrix.smul_apply, Matrix.one_apply_eq, Ring.inverse_eq_inv']
  rw [inv_mul_eq_div, div_eq_iff hne]
  ring_nf
  simp [Complex.I_sq]
  ring

/-- C1 counterexample: at `psi = ![1]`, `H = 1`, `dt = 2` the state the
code returns does not satisfy the specification's system
`(I + i·(dt/2ħ)·H) · ψ_{n+1} = (I − i·(dt/2ħ)·H) · ψ_n`. -/
theorem evolve_spec_system_counterexample :
    cnMatA_spec (1 : Matrix (Fin 1) (Fin 1) ℂ) 2 *ᵥ
        evolve_wave_function ![(1 : ℂ)] 1 2 ≠
      cnMatB_spec (1 : Matrix (Fin 1) (Fin 1) ℂ) 2 *ᵥ ![(1 : ℂ)] := by
  rw [evolve_example_eval]
  intro hcontra
  have hhb : ((hbar : ℝ) : ℂ) ≠ 0 := Complex.ofReal_ne_zero.mpr hbar_pos.ne'
  have h0 := congrFun hcontra 0
  simp only [cnMatA_spec, cnMatB_spec, Matrix.mulVec, Matrix.dotProduct,
    Fin.sum_univ_one, Matrix.add_apply, Matrix.sub_apply, Matrix.smul_apply,
    Matrix.one_apply_eq, Matrix.cons_val_zero, smul_eq_mul, mul_one]
    at h0
  field_simp at h0
  have hre := congrArg Complex.re h0
  simp [Complex.add_re, Complex.sub_re, Complex.mul_re, Complex.mul_im,
    Complex.I_re, Complex.I_im, Complex.one_re, Complex.one_im,
    Complex.ofReal_re, Complex.ofReal_im] at hre
  nlinarith [hbar_pos, hre]

/-! ## Unitarity of the code's Crank-Nicolson step -/

/-- Conjugating the code's scalar `i·dt/2` flips its sign (`dt` is real). -/
theorem star_cn_scalar (dt : ℝ) :
    star (Complex.I * (dt : ℂ) / 2) = -(Complex.I * (dt : ℂ) / 2) := by
  simp [Complex.star_def, map_div₀, Complex.conj_I, Complex.conj_ofReal]
  ring

/-- For Hermitian `H` the code's matrices satisfy `aᴴ = b`. -/
theorem cnMatA_conjTranspose {N : ℕ} (H : Matrix (Fin N) (Fin N) ℂ)
    (dt : ℝ) (hH : H.IsHermitian) : (cnMatA H dt)ᴴ = cnMatB H dt := by
  rw [cnMatA, cnMatB, Matrix.conjTranspose_sub, Matrix.conjTranspose_smul,
    Matrix.conjTranspose_one, hH.eq, star_cn_scalar, neg_smul,
    sub_neg_eq_add]

/-- `b` is an affine shift of `a`: `b = 2·I − a`. -/
theorem cnMatB_eq {N : ℕ} (H : Matrix (Fin N) (Fin N) ℂ) (dt : ℝ) :
    cnMatB H dt = (2 : ℕ) • (1 : Matrix (Fin N) (Fin N) ℂ) - cnMatA H dt := by
  rw [cnMatA, cnMatB, two_smul]
  abel

/-- The code's matrices `a` and `b` commute. -/
theorem cnMat_commute {N : ℕ} (H : Matrix (Fin N) (Fin N) ℂ) (dt : ℝ) :
    cnMatA H dt * cnMatB H dt = cnMatB H dt * cnMatA H dt := by
  rw [cnMatB_eq, mul_sub, sub_mul, mul_smul_comm, smul_mul_assoc, mul_one,
    one_mul]

/-- If the solve succeeds (`a` nonsingular) then `b` is nonsingular too. -/
theorem isUnit_det_cnMatB {N : ℕ} (H : Matrix (Fin N) (Fin N) ℂ) (dt : ℝ)
    (hH : H.IsHermitian) (h : IsUnit (cnMatA H dt).det) :
    IsUnit (cnMatB H dt).det := by
  rw [← cnMatA_conjTranspose H dt hH, Matrix.det_conjTranspose]
  exact h.star

/-- The Cayley-transform matrix `a⁻¹ · b` applied by the code is unitary:
`Uᴴ · U = I`. -/
theorem cnU_unitary {N : ℕ} (H : Matrix (Fin N) (Fin N) ℂ) (dt : ℝ)
    (hH : H.IsHermitian) (h : IsUnit (cnMatA H dt).det) :
    ((cnMatA H dt)⁻¹ * cnMatB H dt)ᴴ * ((cnMatA H dt)⁻¹ * cnMatB H dt)
      = 1 := by
  set a := cnMatA H dt with ha
  set b := cnMatB H dt with hb'
  have hb : IsUnit b.det := isUnit_det_cnMatB H dt hH h
  have hab : a * b = b * a := cnMat_commute H dt
  have hinv : b⁻¹ * a⁻¹ = a⁻¹ * b⁻¹ := by
    rw [← Matrix.mul_inv_rev, ← Matrix.mul_inv_rev, hab]
  have haH : aᴴ = b := cnMatA_conjTranspose H dt hH
  have hbH : bᴴ = a := by rw [← haH, Matrix.conjTranspose_conjTranspose]
  have haiH : (a⁻¹)ᴴ = b⁻¹ := by
    rw [Matrix.conjTranspose_nonsing_inv, haH]
  calc (a⁻¹ * b)ᴴ * (a⁻¹ * b)
      = bᴴ * ((a⁻¹)ᴴ * (a⁻¹ * b)) := by
        rw [Matrix.conjTranspose_mul, Matrix.mul_assoc]
    _ = a * (b⁻¹ * (a⁻¹ * b)) := by rw [hbH, haiH]
    _ = a * (a⁻¹ * (b⁻¹ * b)) := by
        rw [← Matrix.mul_assoc b⁻¹, hinv, Matrix.mul_assoc]
    _ = 1 := by
        rw [Matrix.nonsing_inv_mul _ hb, Matrix.mul_one,
          Matrix.mul_nonsing_inv _ h]

/-- `Σ conj(v_i)·v_i` is the (real) sum of squared moduli. -/
theorem dotProduct_star_self_eq {N : ℕ} (v : Fin N → ℂ) :
    star v ⬝ᵥ v = ((∑ i, Complex.abs (v i) ^ 2 : ℝ) : ℂ) := by
  rw [Matrix.dotProduct, Complex.ofReal_sum]
  refine Finset.sum_congr rfl ?_
  intro i _
  rw [Pi.star_apply, Complex.star_def, Complex.sq_abs, mul_comm,
    Complex.mul_conj]

/-- C10: for Hermitian `H` and any real `dt`, whenever the linear solve
succeeds the propagator step preserves the Euclidean norm exactly. -/
theorem evolve_preserves_euclidean_norm {N : ℕ} (psi : Fin N → ℂ)
    (H : Matrix (Fin N) (Fin N) ℂ) (dt : ℝ)
    (hH : H.IsHermitian) (h : IsUnit (cnMatA H dt).det) :
    ∑ i, Complex.abs (evolve_wave_function psi H dt i) ^ 2
      = ∑ i, Complex.abs (psi i) ^ 2 := by
  have hU := cnU_unitary H dt hH h
  have key : star (evolve_wave_function psi H dt) ⬝ᵥ
      evolve_wave_function psi H dt = star psi ⬝ᵥ psi := by
    rw [evolve_wave_function, Matrix.mulVec_mulVec, Matrix.star_mulVec,
      ← Matrix.dotProduct_mulVec, Matrix.mulVec_mulVec, hU,
      Matrix.one_mulVec]
  rw [dotProduct_star_self_eq, dotProduct_star_self_eq] at key
  exact_mod_cast key

/-- Witness for C10 at `psi = ![1]`, `H = I`, `dt = 2`. -/
theorem evolve_preserves_euclidean_norm_witness :
    (1 : Matrix (Fin 1) (Fin 1) ℂ).IsHermitian ∧
      IsUnit (cnMatA (1 : Matrix (Fin 1) (Fin 1) ℂ) 2).det ∧
      ∑ i, Complex.abs (evolve_wave_function ![(1 : ℂ)] 1 2 i) ^ 2
        = ∑ i, Complex.abs ((![(1 : ℂ)]) i) ^ 2 :=
  ⟨Matrix.isHermitian_one, isUnit_det_cnMatA_example,
    evolve_preserves_euclidean_norm ![(1 : ℂ)] 1 2 Matrix.isHermitian_one
      isUnit_det_cnMatA_example⟩

/-! ## Shape and parameter validation behaviour -/

/-- C8 counterexample: with grid `[0, 1]` (length `N = 2`) and potential
`[5]` (length `N − 1 = 1`), `hamiltonian` does not fail at all — numpy
broadcasts the `1×1` diagonal over the kinetic matrix and returns a
result. -/
theorem hamiltonian_mismatch_counterexample :
    (hamiltonian_np [0, 1] [5]).isOk = true := rfl

/-- C8 (amended): the builder performs no length validation.  A potential
whose length is neither the grid length nor `1` makes the final addition
fail with a numpy broadcasting error (after the kinetic matrix has been
computed); a length-`1` potential is silently broadcast instead of
rejected.  No `DimensionMismatchError` exists in the code. -/
theorem hamiltonian_np_mismatch {x V : List ℝ}
    (hx : 2 ≤ x.length) (hV : V.length ≠ x.length) (hV1 : V.length ≠ 1) :
    hamiltonian_np x V = Except.error NpError.ValueErrorBroadcast := by
  have h1 : ¬(x.length = V.length) := fun hc => hV hc.symm
  have h2 : ¬(x.length = 1) := by omega
  simp only [hamiltonian_np, npAdd, npDiag, if_pos hx]
  rw [if_neg h1, if_neg hV1, if_neg h2]

/-- Witness for the amended C8: grid `[0, 1]`, potential `[1, 2, 3]`. -/
theorem hamiltonian_np_mismatch_witness :
    2 ≤ ([0, 1] : List ℝ).length ∧
      ([1, 2, 3] : List ℝ).length ≠ ([0, 1] : List ℝ).length ∧
      ([1, 2, 3] : List ℝ).length ≠ 1 ∧
      hamiltonian_np [0, 1] [1, 2, 3]
        = Except.error NpError.ValueErrorBroadcast :=
  ⟨by simp, by simp, by simp,
    hamiltonian_np_mismatch (by simp) (by simp) (by simp)⟩

/-- C9 counterexample: at `sigma = −1 ≤ 0` the wave-packet builder does
not fail with `InvalidParameterError` — it returns normally with the
computed array. -/
theorem initialize_sigma_counterexample :
    initialize_wave_packet_checked ![(0 : ℝ)] 0 0 (-1)
      = Except.ok (initialize_wave_packet ![(0 : ℝ)] 0 0 (-1)) := rfl

/-- C9 (amended): the builder performs no validation of `sigma`: for any
`sigma ≤ 0` the call still returns normally with the computed wave-packet
values, raising no `InvalidParameterError`. -/
theorem initialize_no_validation {N : ℕ} (x : Fin N → ℝ)
    (x0 k0 sigma : ℝ) (_hs : sigma ≤ 0) :
    initialize_wave_packet_checked x x0 k0 sigma
      = Except.ok (initialize_wave_packet x x0 k0 sigma) := rfl

/-- Witness for the amended C9 at `sigma = −1`. -/
theorem initialize_no_validation_witness :
    (-1 : ℝ) ≤ 0 ∧
      initialize_wave_packet_checked ![(0 : ℝ)] 0 0 (-1)
        = Except.ok (initialize_wave_packet ![(0 : ℝ)] 0 0 (-1)) :=
  ⟨by norm_num, initialize_no_validation ![(0 : ℝ)] 0 0 (-1) (by norm_num)⟩

end WaveSim
